/-
Verification of the PNG chunk layer of pngme_rust
(src/chunk_type.rs and src/chunk.rs).

Shallow embedding conventions: a `u8` is a `Nat` (reduced `% 256` exactly
where the machine type forces it), a `u32` is a `Nat` reduced `% 2^32`,
`Vec<u8>` and `&[u8]` are `List Nat`, `Result` is `Except`, and a Rust
panic (out-of-bounds index, slice-bound underflow, `unwrap` of an `Err`)
is modelled by `Option.none` wrapped around the function's result.
-/
import Mathlib

set_option maxRecDepth 1000000

/-- `ChunkType` from src/chunk_type.rs: the field `code: [u8; 4]`,
embedded as a list of byte values (length 4 at every construction site). -/
structure ChunkType where
  code : List Nat
deriving DecidableEq

/-- `ChunkType::bytes`: returns the packed code bytes. -/
def ChunkType.bytes (t : ChunkType) : List Nat := t.code

/-- `ChunkType::is_valid_byte`:
`(65..90).contains(&byte) || (97..122).contains(&byte)`.
The Rust `..` ranges exclude their upper ends, so 90 and 122 are rejected. -/
def ChunkType.is_valid_byte (b : Nat) : Bool :=
  (65 ≤ b && b < 90) || (97 ≤ b && b < 122)

/-- `ChunkType::is_valid`: `self.code[2] & (1 << 5) == 0`. -/
def ChunkType.is_valid (t : ChunkType) : Bool := t.code.getD 2 0 &&& 32 == 0

/-- `ChunkType::is_critical`: `(self.code[0] & (1 << 5)) == 0`
(the `println!` in the source has no effect on the returned value). -/
def ChunkType.is_critical (t : ChunkType) : Bool := t.code.getD 0 0 &&& 32 == 0

/-- `ChunkType::is_public`: `(self.code[1] & (1 << 5)) == 0`. -/
def ChunkType.is_public (t : ChunkType) : Bool := t.code.getD 1 0 &&& 32 == 0

/-- `ChunkType::is_reserved_bit_valid`: `(self.code[2] & (1 << 5)) == 0`. -/
def ChunkType.is_reserved_bit_valid (t : ChunkType) : Bool :=
  t.code.getD 2 0 &&& 32 == 0

/-- `ChunkType::is_safe_to_copy`: `(self.code[3] & (1 << 5)) != 0`. -/
def ChunkType.is_safe_to_copy (t : ChunkType) : Bool :=
  !(t.code.getD 3 0 &&& 32 == 0)

/-- The decode-side error values of the two source files:
`PngDecodeError` with reason `"Bad data type! (received ...)"` carries the
four received bytes; `ChunkDecodingError` with reason
`"Bad CRC (received .., expected ..)"` carries the stored checksum and the
recomputed one. -/
inductive ChunkError where
  | badDataType (received : List Nat)
  | badCrc (received : Nat) (expected : Nat)
deriving DecidableEq

/-- Decidable equality of `Except` results, so that concrete decode
outcomes can be checked by evaluation. -/
instance {e a : Type} [DecidableEq e] [DecidableEq a] : DecidableEq (Except e a) :=
  fun x y =>
    match x, y with
    | .ok u, .ok v =>
      if h : u = v then .isTrue (by rw [h]) else
        .isFalse (by intro hc; injection hc; contradiction)
    | .ok _, .error _ => .isFalse (by intro hc; injection hc)
    | .error _, .ok _ => .isFalse (by intro hc; injection hc)
    | .error u, .error v =>
      if h : u = v then .isTrue (by rw [h]) else
        .isFalse (by intro hc; injection hc; contradiction)

/-- `impl TryFrom<[u8; 4]> for ChunkType`: pack the bytes, then accept the
value iff `is_valid` holds, otherwise fail reporting the received bytes. -/
def chunkTypeTryFrom (value : List Nat) : Except ChunkError ChunkType :=
  let chunktype : ChunkType := ⟨value⟩
  if chunktype.is_valid then .ok chunktype else .error (.badDataType value)

/-- The loop of `impl FromStr for ChunkType`: walk the string's bytes with
their index; a byte failing `is_valid_byte` returns `Err` immediately;
otherwise `code[i] = byte`, which in Rust panics (here `none`) as soon as
`i` is past the end of the 4-byte array. -/
def fromStrLoop : List Nat → Nat → List Nat → Option (Except String (List Nat))
  | [], _, code => some (.ok code)
  | b :: rest, i, code =>
    if ChunkType.is_valid_byte b = false then
      some (.error "Invalid byte in chunk type string")
    else if i < 4 then fromStrLoop rest (i + 1) (code.set i b)
    else none

/-- `impl FromStr for ChunkType`: start from `[0u8; 4]`, run the loop over
the string's bytes, pack the resulting code. -/
def chunkTypeFromStr (s : List Nat) : Option (Except String ChunkType) :=
  (fromStrLoop s 0 [0, 0, 0, 0]).map (fun r => r.map (fun code => ⟨code⟩))

/-- One bit-step of the reflected CRC-32 computed by the `crc` crate's
`CRC_32_ISO_HDLC` algorithm: shift right and xor the reflected polynomial
`0xEDB88320 = 3988292384` exactly when the bit shifted out was set. -/
def crcStep (x : Nat) : Nat := (x / 2) ^^^ ((x % 2) * 3988292384)

/-- Absorb one byte into the running CRC state: xor the byte value into
the low 8 bits, then run 8 bit-steps. -/
def crcByte (crc b : Nat) : Nat := crcStep^[8] (crc ^^^ (b % 256))

/-- `Crc::<u32>::new(&CRC_32_ISO_HDLC).checksum(..)`: initial state
`0xFFFFFFFF = 4294967295`, reflected bit order, final xor `0xFFFFFFFF`.
(Checked below against the algorithm's published check value and the
repository's own test vector.) -/
def crc32 (data : List Nat) : Nat :=
  4294967295 ^^^ (data.foldl crcByte 4294967295)

/-- A UTF-8 continuation byte, `0x80..=0xBF`. -/
def utf8Cont (b : Nat) : Bool := 128 ≤ b && b ≤ 191

/-- Validity of a byte sequence as UTF-8, the check performed by Rust's
`String::from_utf8` (RFC 3629 / Unicode table 3-7: the byte ranges that
exclude overlong forms, surrogates and values above U+10FFFF). -/
def utf8Valid : List Nat → Bool
  | [] => true
  | b :: rest =>
    if b ≤ 127 then utf8Valid rest
    else if 194 ≤ b && b ≤ 223 then
      match rest with
      | c :: r => utf8Cont c && utf8Valid r
      | [] => false
    else if b = 224 then
      match rest with
      | c :: d :: r => (160 ≤ c && c ≤ 191) && utf8Cont d && utf8Valid r
      | _ => false
    else if 225 ≤ b && b ≤ 236 then
      match rest with
      | c :: d :: r => utf8Cont c && utf8Cont d && utf8Valid r
      | _ => false
    else if b = 237 then
      match rest with
      | c :: d :: r => (128 ≤ c && c ≤ 159) && utf8Cont d && utf8Valid r
      | _ => false
    else if 238 ≤ b && b ≤ 239 then
      match rest with
      | c :: d :: r => utf8Cont c && utf8Cont d && utf8Valid r
      | _ => false
    else if b = 240 then
      match rest with
      | c :: d :: e :: r =>
        (144 ≤ c && c ≤ 191) && utf8Cont d && utf8Cont e && utf8Valid r
      | _ => false
    else if 241 ≤ b && b ≤ 243 then
      match rest with
      | c :: d :: e :: r => utf8Cont c && utf8Cont d && utf8Cont e && utf8Valid r
      | _ => false
    else if b = 244 then
      match rest with
      | c :: d :: e :: r =>
        (128 ≤ c && c ≤ 143) && utf8Cont d && utf8Cont e && utf8Valid r
      | _ => false
    else false

/-- `Chunk` from src/chunk.rs: `len: u32`, `chunktype: ChunkType`,
`data: Vec<u8>`, `crc: u32`. -/
structure Chunk where
  len : Nat
  chunktype : ChunkType
  data : List Nat
  crc : Nat
deriving DecidableEq

/-- `Chunk::new`: `len = data.len() as u32` and the CRC over the
chunk-type bytes concatenated with the data. -/
def Chunk.new (chunktype : ChunkType) (data : List Nat) : Chunk :=
  { len := data.length % 4294967296
    chunktype := chunktype
    data := data
    crc := crc32 (chunktype.bytes ++ data) }

/-- `Chunk::length`: the length of the data portion of this chunk. -/
def Chunk.length (c : Chunk) : Nat := c.len

/-- `Chunk::chunk_type`: the `ChunkType` of this chunk. -/
def Chunk.chunk_type (c : Chunk) : ChunkType := c.chunktype

/-- `Chunk::data_as_string`:
`Ok(String::from_utf8(self.data.clone()).unwrap())`.  `from_utf8`
validates the bytes as UTF-8, and the `unwrap` panics (`none`) when they
are invalid — the `Err` side of the declared `Result<String, ()>` is never
produced.  A returned string is represented by its UTF-8 byte sequence. -/
def Chunk.data_as_string (c : Chunk) : Option (Except Unit (List Nat)) :=
  if utf8Valid c.data then some (.ok c.data) else none

/-- `u32::to_be_bytes`. -/
def toBe4 (n : Nat) : List Nat :=
  [n / 16777216 % 256, n / 65536 % 256, n / 256 % 256, n % 256]

/-- `u32::from_be_bytes` on a 4-byte slice. -/
def fromBe4 (l : List Nat) : Nat := l.foldl (fun acc b => acc * 256 + b % 256) 0

/-- `Chunk::as_bytes`: big-endian length bytes, the four chunk-type bytes
(indexed one by one as in the source), the data, the big-endian CRC. -/
def Chunk.as_bytes (c : Chunk) : List Nat :=
  toBe4 c.len ++
    [c.chunktype.bytes.getD 0 0, c.chunktype.bytes.getD 1 0,
     c.chunktype.bytes.getD 2 0, c.chunktype.bytes.getD 3 0] ++
    c.data ++ toBe4 c.crc

/-- `impl TryFrom<&[u8]> for Chunk`.  The `none` cases model the Rust
panics: `bytes[0..4].try_into().unwrap()` needs 4 bytes, the indices
`bytes[4]..bytes[7]` need 8, and the slice `data[data.len() - 4..]`
underflows when fewer than 4 bytes follow the 8-byte header.  The data is
every byte from offset 8 with the last four popped off; a declared length
disagreeing with `data.len() as u32` is rewritten to the actual value (the
warning `println!` has no effect modelled here); finally the stored
big-endian CRC must equal the recomputed `crc32` of type bytes ++ data. -/
def chunkTryFrom (bytes : List Nat) : Option (Except ChunkError Chunk) :=
  if bytes.length < 4 then none
  else if bytes.length < 8 then none
  else
    let len := fromBe4 (bytes.take 4)
    match chunkTypeTryFrom
        [bytes.getD 4 0, bytes.getD 5 0, bytes.getD 6 0, bytes.getD 7 0] with
    | .error e => some (.error e)
    | .ok chunktype =>
      let data0 := bytes.drop 8
      if data0.length < 4 then none
      else
        let crcBytes := data0.drop (data0.length - 4)
        let data := data0.take (data0.length - 4)
        let len1 :=
          if len ≠ data.length % 4294967296 then data.length % 4294967296 else len
        let trueCrc := crc32 (chunktype.bytes ++ data)
        let declared := fromBe4 crcBytes
        if declared ≠ trueCrc then some (.error (.badCrc declared trueCrc))
        else some (.ok { len := len1, chunktype := chunktype, data := data, crc := declared })

/-- Flip bit `j` of the byte at offset `i` of an encoded byte sequence. -/
def flipAt (l : List Nat) (i j : Nat) : List Nat := l.set i (l.getD i 0 ^^^ 2 ^ j)

/-- The decode result is a `Bad CRC` (`ChunkDecodingError`) failure. -/
def isBadCrcErr : Option (Except ChunkError Chunk) → Bool
  | some (.error (.badCrc _ _)) => true
  | _ => false

/-- The decode result is a `Bad data type` (`PngDecodeError`) failure. -/
def isBadDataTypeErr : Option (Except ChunkError Chunk) → Bool
  | some (.error (.badDataType _)) => true
  | _ => false

/-- The decode result is a successfully decoded chunk. -/
def isOkChunk : Option (Except ChunkError Chunk) → Bool
  | some (.ok _) => true
  | _ => false

/-- Modelled from the spec: "ASCII letter (A-Z or a-z)", i.e. a byte value
in the inclusive ranges `65..=90` or `97..=122` that the spec's words
describe — stated separately to compare with the source's
`ChunkType.is_valid_byte`. -/
def isAsciiLetterSpec (b : Nat) : Bool := (65 ≤ b && b ≤ 90) || (97 ≤ b && b ≤ 122)

-- Sanity checks of the CRC embedding: the published CRC-32/ISO-HDLC check
-- value over the bytes of "123456789", and the repository's own test
-- vector "RuSt" ++ "This is where your secret message will be!".
example : crc32 [49, 50, 51, 52, 53, 54, 55, 56, 57] = 3421780262 := by decide

example :
    crc32 ([82, 117, 83, 116] ++
      [84, 104, 105, 115, 32, 105, 115, 32, 119, 104, 101, 114, 101, 32, 121,
       111, 117, 114, 32, 115, 101, 99, 114, 101, 116, 32, 109, 101, 115, 115,
       97, 103, 101, 32, 119, 105, 108, 108, 32, 98, 101, 33]) = 2882656334 := by
  decide

-- ### Helper lemmas: xor arithmetic and the CRC state function

theorem xor_div_two (x y : Nat) : (x ^^^ y) / 2 = x / 2 ^^^ y / 2 := by
  apply Nat.eq_of_testBit_eq
  intro i
  simp only [← Nat.testBit_succ, Nat.testBit_xor]

theorem xor_mod_two (x y : Nat) : (x ^^^ y) % 2 = x % 2 ^^^ y % 2 := by
  rw [Nat.xor_mod_two_eq]
  rcases Nat.mod_two_eq_zero_or_one x with hx | hx <;>
    rcases Nat.mod_two_eq_zero_or_one y with hy | hy <;>
    rw [hx, hy] <;> simp <;> omega

theorem xor_xor_xor (a b c d : Nat) :
    (a ^^^ b) ^^^ (c ^^^ d) = (a ^^^ c) ^^^ (b ^^^ d) := by
  apply Nat.eq_of_testBit_eq
  intro i
  simp only [Nat.testBit_xor]
  cases a.testBit i <;> cases b.testBit i <;> cases c.testBit i <;>
    cases d.testBit i <;> rfl

theorem xor_mod_256 (x y : Nat) : (x ^^^ y) % 256 = x % 256 ^^^ y % 256 := by
  apply Nat.eq_of_testBit_eq
  intro i
  have h256 : (256 : Nat) = 2 ^ 8 := by norm_num
  rw [h256]
  simp only [Nat.testBit_mod_two_pow, Nat.testBit_xor]
  by_cases h : i < 8 <;> simp [h]

theorem mul_xor_bit (a b c : Nat) (ha : a ≤ 1) (hb : b ≤ 1) :
    (a ^^^ b) * c = a * c ^^^ b * c := by
  interval_cases a <;> interval_cases b <;> simp

theorem crcStep_lt {x : Nat} (h : x < 4294967296) : crcStep x < 4294967296 := by
  have e : (4294967296 : Nat) = 2 ^ 32 := by norm_num
  unfold crcStep
  rw [e]
  apply Nat.xor_lt_two_pow (by omega)
  have := Nat.mod_two_eq_zero_or_one x
  rcases this with h' | h' <;> rw [h'] <;> norm_num

theorem crcStep_xor (x y : Nat) : crcStep (x ^^^ y) = crcStep x ^^^ crcStep y := by
  unfold crcStep
  rw [xor_div_two, xor_mod_two,
    mul_xor_bit _ _ _ (by omega) (by omega), xor_xor_xor]

theorem crcStepIter_xor (n x y : Nat) :
    crcStep^[n] (x ^^^ y) = crcStep^[n] x ^^^ crcStep^[n] y := by
  induction n generalizing x y with
  | zero => simp
  | succ n ih => simp only [Function.iterate_succ_apply]; rw [crcStep_xor, ih]

theorem crcByte_xor_state (s1 s2 b : Nat) :
    crcByte s1 b ^^^ crcByte s2 b = crcStep^[8] (s1 ^^^ s2) := by
  unfold crcByte
  rw [← crcStepIter_xor]
  congr 1
  rw [xor_xor_xor, Nat.xor_self, Nat.xor_zero]

theorem crcByte_xor_byte (s b1 b2 : Nat) :
    crcByte s b1 ^^^ crcByte s b2 = crcStep^[8] (b1 % 256 ^^^ b2 % 256) := by
  unfold crcByte
  rw [← crcStepIter_xor]
  congr 1
  rw [xor_xor_xor, Nat.xor_self, Nat.zero_xor]

theorem foldl_crcByte_xor (l : List Nat) : ∀ s1 s2 : Nat,
    l.foldl crcByte s1 ^^^ l.foldl crcByte s2 = crcStep^[8 * l.length] (s1 ^^^ s2) := by
  induction l with
  | nil => intro s1 s2; simp
  | cons b l ih =>
    intro s1 s2
    simp only [List.foldl_cons, List.length_cons]
    rw [ih, crcByte_xor_state, ← Function.iterate_add_apply, Nat.mul_succ]

theorem crcStep_ne_zero {x : Nat} (hlt : x < 4294967296) (hne : x ≠ 0) :
    crcStep x ≠ 0 := by
  unfold crcStep
  rcases Nat.mod_two_eq_zero_or_one x with h | h
  · rw [h]
    simp only [Nat.zero_mul, Nat.xor_zero]
    omega
  · rw [h]
    simp only [Nat.one_mul]
    intro hc
    rw [Nat.xor_eq_zero] at hc
    omega

theorem crcStepIter_ne_zero (n : Nat) : ∀ {x : Nat}, x < 4294967296 → x ≠ 0 →
    crcStep^[n] x ≠ 0 ∧ crcStep^[n] x < 4294967296 := by
  induction n with
  | zero => intro x hlt hne; simpa using ⟨hne, hlt⟩
  | succ n ih =>
    intro x hlt hne
    rw [Function.iterate_succ_apply]
    exact ih (crcStep_lt hlt) (crcStep_ne_zero hlt hne)

theorem crcStepIter_lt (n : Nat) : ∀ {x : Nat}, x < 4294967296 →
    crcStep^[n] x < 4294967296 := by
  induction n with
  | zero => intro x h; simpa using h
  | succ n ih =>
    intro x h
    rw [Function.iterate_succ_apply]
    exact ih (crcStep_lt h)

theorem crcByte_lt {s : Nat} (h : s < 4294967296) (b : Nat) :
    crcByte s b < 4294967296 := by
  unfold crcByte
  apply crcStepIter_lt
  have e : (4294967296 : Nat) = 2 ^ 32 := by norm_num
  rw [e] at h ⊢
  exact Nat.xor_lt_two_pow h (by omega)

theorem crc32_lt (l : List Nat) : crc32 l < 4294967296 := by
  unfold crc32
  have hf : ∀ s : Nat, s < 4294967296 → l.foldl crcByte s < 4294967296 := by
    induction l with
    | nil => intro s hs; simpa using hs
    | cons b l ih => intro s hs; rw [List.foldl_cons]; exact ih _ (crcByte_lt hs b)
  have e : (4294967296 : Nat) = 2 ^ 32 := by norm_num
  rw [e]
  exact Nat.xor_lt_two_pow (by norm_num) (by rw [← e]; exact hf _ (by norm_num))

theorem crc32_flip_ne (pre suf : List Nat) (b j : Nat) (hj : j < 8) :
    crc32 (pre ++ (b ^^^ 2 ^ j) :: suf) ≠ crc32 (pre ++ b :: suf) := by
  have hplt : (2 : Nat) ^ j < 256 := by
    calc (2 : Nat) ^ j < 2 ^ 8 := Nat.pow_lt_pow_right (by norm_num) hj
    _ = 256 := by norm_num
  have hpne : (2 : Nat) ^ j ≠ 0 := (Nat.pos_pow_of_pos j (by norm_num)).ne'
  unfold crc32
  intro heq
  have h1 : (pre ++ (b ^^^ 2 ^ j) :: suf).foldl crcByte 4294967295
      = (pre ++ b :: suf).foldl crcByte 4294967295 := Nat.xor_right_injective heq
  rw [List.foldl_append, List.foldl_append, List.foldl_cons, List.foldl_cons] at h1
  have h2 : suf.foldl crcByte (crcByte (pre.foldl crcByte 4294967295) (b ^^^ 2 ^ j)) ^^^
      suf.foldl crcByte (crcByte (pre.foldl crcByte 4294967295) b) = 0 := by
    rw [h1, Nat.xor_self]
  rw [foldl_crcByte_xor, crcByte_xor_byte] at h2
  have hm : (b ^^^ 2 ^ j) % 256 ^^^ b % 256 = 2 ^ j := by
    rw [xor_mod_256, Nat.mod_eq_of_lt hplt, Nat.xor_comm (b % 256) (2 ^ j),
      Nat.xor_cancel_right]
  rw [hm] at h2
  have hA := crcStepIter_ne_zero 8 (by omega) hpne
  have hB := crcStepIter_ne_zero (8 * suf.length) hA.2 hA.1
  exact hB.1 h2

-- ### Helper lemmas: lists

theorem eq_four_of_length_eq (l : List Nat) (h : l.length = 4) :
    l = [l.getD 0 0, l.getD 1 0, l.getD 2 0, l.getD 3 0] := by
  rcases l with _ | ⟨a, _ | ⟨b, _ | ⟨c, _ | ⟨d, _ | ⟨e, l⟩⟩⟩⟩⟩ <;> simp_all

theorem set_append_left {α : Type} (l1 l2 : List α) (a : α) : ∀ n, n < l1.length →
    (l1 ++ l2).set n a = l1.set n a ++ l2 := by
  induction l1 with
  | nil => intro n h; simp at h
  | cons x l ih =>
    intro n h
    cases n with
    | zero => rfl
    | succ n =>
      show x :: (l ++ l2).set n a = x :: (l.set n a ++ l2)
      rw [ih n (by simp at h; omega)]

theorem set_append_right {α : Type} (l1 l2 : List α) (a : α) : ∀ n,
    (l1 ++ l2).set (l1.length + n) a = l1 ++ l2.set n a := by
  induction l1 with
  | nil => intro n; simp
  | cons x l ih =>
    intro n
    have e : (x :: l).length + n = (l.length + n) + 1 := by simp; omega
    rw [e]
    show x :: (l ++ l2).set (l.length + n) a = x :: (l ++ l2.set n a)
    rw [ih n]

theorem fromBe4_toBe4 {n : Nat} (h : n < 4294967296) : fromBe4 (toBe4 n) = n := by
  show ((((0 * 256 + n / 16777216 % 256 % 256) * 256 + n / 65536 % 256 % 256) * 256
    + n / 256 % 256 % 256) * 256 + n % 256 % 256) = n
  omega

-- ### The shape of a decode over an explicitly split byte sequence


theorem chunkTypeTryFrom_ok (a b c d : Nat) (h : (c &&& 32 == 0) = true) :
    chunkTypeTryFrom [a, b, c, d] = .ok ⟨[a, b, c, d]⟩ := by
  unfold chunkTypeTryFrom
  exact if_pos h

theorem chunkTypeTryFrom_err (a b c d : Nat) (h : ¬ (c &&& 32 == 0) = true) :
    chunkTypeTryFrom [a, b, c, d] = .error (.badDataType [a, b, c, d]) := by
  unfold chunkTypeTryFrom
  exact if_neg h

theorem chunkTryFrom_parts (lb : List Nat) (a b c d : Nat) (data cb : List Nat)
    (hlb : lb.length = 4) (hcb : cb.length = 4) :
    chunkTryFrom (lb ++ a :: b :: c :: d :: (data ++ cb)) =
      if c &&& 32 == 0 then
        if fromBe4 cb ≠ crc32 ([a, b, c, d] ++ data) then
          some (.error (.badCrc (fromBe4 cb) (crc32 ([a, b, c, d] ++ data))))
        else
          some (.ok
            { len :=
                if fromBe4 lb ≠ data.length % 4294967296 then data.length % 4294967296
                else fromBe4 lb
              chunktype := ⟨[a, b, c, d]⟩
              data := data
              crc := fromBe4 cb })
      else some (.error (.badDataType [a, b, c, d])) := by
  have hsplit : lb ++ a :: b :: c :: d :: (data ++ cb)
      = (lb ++ [a, b, c, d]) ++ (data ++ cb) := by simp
  have hlen : (lb ++ a :: b :: c :: d :: (data ++ cb)).length = data.length + 12 := by
    simp [hlb, hcb]; omega
  have g4 : (lb ++ a :: b :: c :: d :: (data ++ cb)).getD 4 0 = a := by
    rw [List.getD_append_right _ _ _ _ (by omega : lb.length ≤ 4), hlb]; simp
  have g5 : (lb ++ a :: b :: c :: d :: (data ++ cb)).getD 5 0 = b := by
    rw [List.getD_append_right _ _ _ _ (by omega : lb.length ≤ 5), hlb]; simp
  have g6 : (lb ++ a :: b :: c :: d :: (data ++ cb)).getD 6 0 = c := by
    rw [List.getD_append_right _ _ _ _ (by omega : lb.length ≤ 6), hlb]; simp
  have g7 : (lb ++ a :: b :: c :: d :: (data ++ cb)).getD 7 0 = d := by
    rw [List.getD_append_right _ _ _ _ (by omega : lb.length ≤ 7), hlb]; simp
  have hd8 : (lb ++ a :: b :: c :: d :: (data ++ cb)).drop 8 = data ++ cb := by
    rw [hsplit, List.drop_left' (by simp [hlb])]
  have ht4 : (lb ++ a :: b :: c :: d :: (data ++ cb)).take 4 = lb := by
    rw [hsplit, List.append_assoc, List.take_left' hlb]
  have hdl : (data ++ cb).length = data.length + 4 := by simp [hcb]
  have hdropd : List.drop data.length (data ++ cb) = cb := List.drop_left' rfl
  have htaked : List.take data.length (data ++ cb) = data := List.take_left' rfl
  have hn4 : ¬ (data.length + 4 < 4) := by omega
  unfold chunkTryFrom
  rw [hlen, if_neg (by omega), if_neg (by omega), g4, g5, g6, g7]
  by_cases hc : (c &&& 32 == 0) = true
  · rw [chunkTypeTryFrom_ok a b c d hc, if_pos hc]
    simp only [hd8, ht4, hdl, if_neg hn4, Nat.add_sub_cancel, hdropd, htaked,
      ChunkType.bytes]
  · rw [chunkTypeTryFrom_err a b c d hc, if_neg hc]

theorem as_bytes_cons (c : Chunk) :
    c.as_bytes = toBe4 c.len ++ c.chunktype.bytes.getD 0 0 ::
      c.chunktype.bytes.getD 1 0 :: c.chunktype.bytes.getD 2 0 ::
      c.chunktype.bytes.getD 3 0 :: (c.data ++ toBe4 c.crc) := by
  simp [Chunk.as_bytes]

/-- C1.  For every identifier whose reserved bit is clear (bit 5 of byte 3
equals 0) and every payload, decoding the encoding of the chunk built by
`Chunk::new` succeeds and returns a chunk equal to the original — in
particular with identical length, identifier bytes, data and checksum. -/
theorem chunk_encode_decode_roundtrip (t : ChunkType) (data : List Nat)
    (hlen : t.code.length = 4) (hv : t.is_valid = true) :
    chunkTryFrom (Chunk.new t data).as_bytes = some (.ok (Chunk.new t data)) := by
  rw [as_bytes_cons]
  have hb : (Chunk.new t data).chunktype = t := rfl
  have hlenf : (Chunk.new t data).len = data.length % 4294967296 := rfl
  have hdf : (Chunk.new t data).data = data := rfl
  have hcf : (Chunk.new t data).crc = crc32 (t.bytes ++ data) := rfl
  rw [hb, hlenf, hdf, hcf]
  rw [chunkTryFrom_parts _ _ _ _ _ _ _ (by rfl) (by rfl)]
  have hv' : (t.bytes.getD 2 0 &&& 32 == 0) = true := hv
  rw [if_pos hv']
  have hmsg : [t.bytes.getD 0 0, t.bytes.getD 1 0, t.bytes.getD 2 0,
      t.bytes.getD 3 0] ++ data = t.bytes ++ data := by
    show [t.code.getD 0 0, t.code.getD 1 0, t.code.getD 2 0, t.code.getD 3 0]
      ++ data = t.code ++ data
    rw [← eq_four_of_length_eq t.code hlen]
  rw [hmsg, fromBe4_toBe4 (crc32_lt _), if_neg (by simp),
    fromBe4_toBe4 (Nat.mod_lt _ (by norm_num)), if_neg (by simp)]
  have htt : (⟨[t.bytes.getD 0 0, t.bytes.getD 1 0, t.bytes.getD 2 0,
      t.bytes.getD 3 0]⟩ : ChunkType) = t := by
    cases t with
    | mk code => exact congrArg ChunkType.mk (eq_four_of_length_eq code hlen).symm
  rw [htt]
  rfl

/-- C1 witness: the round trip at the identifier "RuSt" and payload
`[1, 2, 3]`. -/
theorem chunk_encode_decode_roundtrip_witness :
    chunkTryFrom (Chunk.new ⟨[82, 117, 83, 116]⟩ [1, 2, 3]).as_bytes
      = some (.ok (Chunk.new ⟨[82, 117, 83, 116]⟩ [1, 2, 3])) :=
  chunk_encode_decode_roundtrip ⟨[82, 117, 83, 116]⟩ [1, 2, 3] (by decide) (by decide)

theorem chunkTryFrom_ge12 (bytes : List Nat) (h12 : 12 ≤ bytes.length) :
    chunkTryFrom bytes =
      if bytes.getD 6 0 &&& 32 == 0 then
        if fromBe4 (bytes.drop (bytes.length - 4)) ≠
            crc32 ([bytes.getD 4 0, bytes.getD 5 0, bytes.getD 6 0, bytes.getD 7 0]
              ++ (bytes.drop 8).take (bytes.length - 12)) then
          some (.error (.badCrc (fromBe4 (bytes.drop (bytes.length - 4)))
            (crc32 ([bytes.getD 4 0, bytes.getD 5 0, bytes.getD 6 0, bytes.getD 7 0]
              ++ (bytes.drop 8).take (bytes.length - 12)))))
        else
          some (.ok
            { len :=
                if fromBe4 (bytes.take 4) ≠ (bytes.length - 12) % 4294967296 then
                  (bytes.length - 12) % 4294967296
                else fromBe4 (bytes.take 4)
              chunktype := ⟨[bytes.getD 4 0, bytes.getD 5 0, bytes.getD 6 0,
                bytes.getD 7 0]⟩
              data := (bytes.drop 8).take (bytes.length - 12)
              crc := fromBe4 (bytes.drop (bytes.length - 4)) })
      else
        some (.error (.badDataType [bytes.getD 4 0, bytes.getD 5 0, bytes.getD 6 0,
          bytes.getD 7 0])) := by
  have e1 : (bytes.drop 8).length = bytes.length - 8 := by simp
  have e2 : bytes.length - 8 - 4 = bytes.length - 12 := by omega
  have e3 : (bytes.drop 8).drop (bytes.length - 12) = bytes.drop (bytes.length - 4) := by
    rw [List.drop_drop]
    congr 1
    omega
  have e4 : ((bytes.drop 8).take (bytes.length - 12)).length = bytes.length - 12 := by
    simp
    omega
  unfold chunkTryFrom
  rw [if_neg (by omega), if_neg (by omega)]
  by_cases hc : (bytes.getD 6 0 &&& 32 == 0) = true
  · rw [chunkTypeTryFrom_ok _ _ _ _ hc, if_pos hc]
    simp only [e1, if_neg (show ¬ (bytes.length - 8 < 4) by omega), e2, e3, e4,
      ChunkType.bytes]
  · rw [chunkTypeTryFrom_err _ _ _ _ hc, if_neg hc]

/-- C4.  For at least 12 bytes whose identifier bytes form a valid
identifier, decoding fails exactly when the stored big-endian checksum in
the last 4 bytes differs from the CRC-32 of the identifier bytes followed
by the extracted data, the error is `Bad CRC` carrying the received and
the expected value, and a matching checksum always yields a decoded
chunk — no other hard failure exists. -/
theorem chunk_decode_fails_iff_bad_checksum (bytes : List Nat)
    (h12 : 12 ≤ bytes.length) (hv : bytes.getD 6 0 &&& 32 = 0) :
    ((chunkTryFrom bytes =
        some (.error (.badCrc (fromBe4 (bytes.drop (bytes.length - 4)))
          (crc32 ([bytes.getD 4 0, bytes.getD 5 0, bytes.getD 6 0, bytes.getD 7 0]
            ++ (bytes.drop 8).take (bytes.length - 12)))))) ↔
      fromBe4 (bytes.drop (bytes.length - 4)) ≠
        crc32 ([bytes.getD 4 0, bytes.getD 5 0, bytes.getD 6 0, bytes.getD 7 0]
          ++ (bytes.drop 8).take (bytes.length - 12))) ∧
    (fromBe4 (bytes.drop (bytes.length - 4)) =
        crc32 ([bytes.getD 4 0, bytes.getD 5 0, bytes.getD 6 0, bytes.getD 7 0]
          ++ (bytes.drop 8).take (bytes.length - 12)) →
      isOkChunk (chunkTryFrom bytes) = true) := by
  rw [chunkTryFrom_ge12 bytes h12,
    if_pos (show (bytes.getD 6 0 &&& 32 == 0) = true by rw [hv]; rfl)]
  by_cases hcrc : fromBe4 (bytes.drop (bytes.length - 4)) =
      crc32 ([bytes.getD 4 0, bytes.getD 5 0, bytes.getD 6 0, bytes.getD 7 0]
        ++ (bytes.drop 8).take (bytes.length - 12))
  · rw [if_neg (not_not_intro hcrc)]
    exact ⟨iff_of_false (by simp) (not_not_intro hcrc), fun _ => rfl⟩
  · rw [if_pos hcrc]
    exact ⟨iff_of_true rfl hcrc, fun h => absurd h hcrc⟩

def c4bytes : List Nat := [0, 0, 0, 0, 82, 117, 83, 116] ++ toBe4 (crc32 [82, 117, 83, 116])

/-- C4 witness: a well-formed 12-byte buffer with an empty payload. -/
theorem chunk_decode_fails_iff_bad_checksum_witness :
    ((chunkTryFrom c4bytes =
        some (.error (.badCrc (fromBe4 (c4bytes.drop (c4bytes.length - 4)))
          (crc32 ([c4bytes.getD 4 0, c4bytes.getD 5 0, c4bytes.getD 6 0, c4bytes.getD 7 0]
            ++ (c4bytes.drop 8).take (c4bytes.length - 12)))))) ↔
      fromBe4 (c4bytes.drop (c4bytes.length - 4)) ≠
        crc32 ([c4bytes.getD 4 0, c4bytes.getD 5 0, c4bytes.getD 6 0, c4bytes.getD 7 0]
          ++ (c4bytes.drop 8).take (c4bytes.length - 12))) ∧
    (fromBe4 (c4bytes.drop (c4bytes.length - 4)) =
        crc32 ([c4bytes.getD 4 0, c4bytes.getD 5 0, c4bytes.getD 6 0, c4bytes.getD 7 0]
          ++ (c4bytes.drop 8).take (c4bytes.length - 12)) →
      isOkChunk (chunkTryFrom c4bytes) = true) :=
  chunk_decode_fails_iff_bad_checksum c4bytes (by decide) (by decide)

/-- C5.  For at least 12 bytes with a valid identifier and a matching
checksum whose declared length disagrees with the actual payload size
(total size minus 12), decoding still succeeds and the decoded chunk's
length is the actual payload size, not the declared value. -/
theorem chunk_decode_length_lenient (bytes : List Nat) (h12 : 12 ≤ bytes.length)
    (hsmall : bytes.length - 12 < 4294967296)
    (hv : bytes.getD 6 0 &&& 32 = 0)
    (hmis : fromBe4 (bytes.take 4) ≠ bytes.length - 12)
    (hcrc : fromBe4 (bytes.drop (bytes.length - 4)) =
      crc32 ([bytes.getD 4 0, bytes.getD 5 0, bytes.getD 6 0, bytes.getD 7 0]
        ++ (bytes.drop 8).take (bytes.length - 12))) :
    chunkTryFrom bytes = some (.ok
      { len := bytes.length - 12
        chunktype := ⟨[bytes.getD 4 0, bytes.getD 5 0, bytes.getD 6 0, bytes.getD 7 0]⟩
        data := (bytes.drop 8).take (bytes.length - 12)
        crc := fromBe4 (bytes.drop (bytes.length - 4)) }) ∧
    bytes.length - 12 ≠ fromBe4 (bytes.take 4) := by
  rw [chunkTryFrom_ge12 bytes h12,
    if_pos (show (bytes.getD 6 0 &&& 32 == 0) = true by rw [hv]; rfl),
    if_neg (not_not_intro hcrc)]
  rw [Nat.mod_eq_of_lt hsmall, if_pos hmis]
  exact ⟨rfl, fun h => hmis h.symm⟩

def c5bytes : List Nat := [0, 0, 0, 5, 82, 117, 83, 116, 1, 2] ++
  toBe4 (crc32 [82, 117, 83, 116, 1, 2])

/-- C5 witness: a buffer declaring length 5 while carrying a 2-byte
payload, with a correct checksum. -/
theorem chunk_decode_length_lenient_witness :
    chunkTryFrom c5bytes = some (.ok
      { len := c5bytes.length - 12
        chunktype := ⟨[c5bytes.getD 4 0, c5bytes.getD 5 0, c5bytes.getD 6 0,
          c5bytes.getD 7 0]⟩
        data := (c5bytes.drop 8).take (c5bytes.length - 12)
        crc := fromBe4 (c5bytes.drop (c5bytes.length - 4)) }) ∧
    c5bytes.length - 12 ≠ fromBe4 (c5bytes.take 4) :=
  chunk_decode_length_lenient c5bytes (by decide) (by decide) (by decide) (by decide)
    (by decide)

/-- C9.  On any input of at least 12 bytes, decoding is total: it returns
either a chunk or a tagged error, never hitting an out-of-bounds slice or
index (modelled as `none`). -/
theorem chunk_decode_total (bytes : List Nat) (h12 : 12 ≤ bytes.length) :
    (chunkTryFrom bytes).isSome = true := by
  rw [chunkTryFrom_ge12 bytes h12]
  split
  · split <;> rfl
  · rfl

/-- C9 witness: 12 zero bytes decode without a fault. -/
theorem chunk_decode_total_witness :
    (chunkTryFrom [0, 0, 0, 0, 0, 0, 0, 0, 0, 0, 0, 0]).isSome = true :=
  chunk_decode_total [0, 0, 0, 0, 0, 0, 0, 0, 0, 0, 0, 0] (by decide)

/-- C3.  The text constructor's byte check contradicts the spec: the Rust
ranges `(65..90)` and `(97..122)` exclude their upper bounds, so the
ASCII letters 'Z' (90) and 'z' (122) are rejected.  "ZZZZ" consists only
of ASCII uppercase letters, yet `FromStr` fails with the invalid-byte
error. -/
theorem from_str_rejects_letter_z :
    chunkTypeFromStr [90, 90, 90, 90] =
      some (.error "Invalid byte in chunk type string") ∧
    [90, 90, 90, 90].all isAsciiLetterSpec = true ∧
    ChunkType.is_valid_byte 90 = false ∧ ChunkType.is_valid_byte 122 = false := by
  decide

/-- C6.  The flag accessors on the five literal identifiers of the spec:
"RuSt" is critical, not public, reserved-bit valid, safe to copy and
valid; "ruSt" is not critical; "RUSt" is public; "Rust" has an invalid
reserved bit and is invalid; "RuST" is not safe to copy.  Each identifier
is constructible from its text. -/
theorem chunk_type_flag_literals :
    chunkTypeFromStr [82, 117, 83, 116] = some (.ok ⟨[82, 117, 83, 116]⟩) ∧
    (ChunkType.mk [82, 117, 83, 116]).is_critical = true ∧
    (ChunkType.mk [82, 117, 83, 116]).is_public = false ∧
    (ChunkType.mk [82, 117, 83, 116]).is_reserved_bit_valid = true ∧
    (ChunkType.mk [82, 117, 83, 116]).is_safe_to_copy = true ∧
    (ChunkType.mk [82, 117, 83, 116]).is_valid = true ∧
    chunkTypeFromStr [114, 117, 83, 116] = some (.ok ⟨[114, 117, 83, 116]⟩) ∧
    (ChunkType.mk [114, 117, 83, 116]).is_critical = false ∧
    chunkTypeFromStr [82, 85, 83, 116] = some (.ok ⟨[82, 85, 83, 116]⟩) ∧
    (ChunkType.mk [82, 85, 83, 116]).is_public = true ∧
    chunkTypeFromStr [82, 117, 115, 116] = some (.ok ⟨[82, 117, 115, 116]⟩) ∧
    (ChunkType.mk [82, 117, 115, 116]).is_reserved_bit_valid = false ∧
    (ChunkType.mk [82, 117, 115, 116]).is_valid = false ∧
    chunkTypeFromStr [82, 117, 83, 84] = some (.ok ⟨[82, 117, 83, 84]⟩) ∧
    (ChunkType.mk [82, 117, 83, 84]).is_safe_to_copy = false := by
  decide

/-- C7.  Constructing a `ChunkType` from 4 raw bytes succeeds exactly when
bit 5 of the third byte is clear; no letter-range check is involved, and
the failure carries the received bytes. -/
theorem chunk_type_from_bytes_iff (b0 b1 b2 b3 : Nat)
    (_h0 : b0 < 256) (_h1 : b1 < 256) (_h2 : b2 < 256) (_h3 : b3 < 256) :
    chunkTypeTryFrom [b0, b1, b2, b3] =
      if b2 &&& 32 = 0 then .ok ⟨[b0, b1, b2, b3]⟩
      else .error (.badDataType [b0, b1, b2, b3]) := by
  by_cases h : b2 &&& 32 = 0
  · rw [if_pos h]
    exact chunkTypeTryFrom_ok _ _ _ _ (by rw [h]; rfl)
  · rw [if_neg h]
    exact chunkTypeTryFrom_err _ _ _ _ (by simpa using h)

/-- C7 witness: the bytes of "RuSt" are accepted. -/
theorem chunk_type_from_bytes_iff_witness :
    chunkTypeTryFrom [82, 117, 83, 116] =
      if 83 &&& 32 = 0 then .ok ⟨[82, 117, 83, 116]⟩
      else .error (.badDataType [82, 117, 83, 116]) :=
  chunk_type_from_bytes_iff 82 117 83 116 (by decide) (by decide) (by decide) (by decide)

/-- C8.  `data_as_string` contradicts its own documentation: on a payload
that is not valid UTF-8 (here the single byte 255) the `unwrap` panics
(modelled as `none`) instead of returning the documented error, while a
valid UTF-8 payload (here "hi") is returned as a string. -/
theorem data_as_string_panics_on_invalid_utf8 :
    (Chunk.new ⟨[82, 117, 83, 116]⟩ [255]).data_as_string = none ∧
    (Chunk.new ⟨[82, 117, 83, 116]⟩ [104, 105]).data_as_string =
      some (.ok [104, 105]) := by
  decide

theorem fromStrLoop_none (s : List Nat) : ∀ i code, i ≤ 4 → 4 - i < s.length →
    (∀ b ∈ s.take (5 - i), ChunkType.is_valid_byte b = true) →
    fromStrLoop s i code = none := by
  induction s with
  | nil => intro i code hi hlen hval; simp at hlen
  | cons b rest ih =>
    intro i code hi hlen hval
    have hb : ChunkType.is_valid_byte b = true := by
      apply hval
      have e : 5 - i = (4 - i) + 1 := by omega
      rw [e, List.take_succ_cons]
      exact List.mem_cons_self _ _
    simp only [fromStrLoop]
    rw [hb, if_neg (by simp : ¬ (true = false))]
    by_cases hi4 : i < 4
    · rw [if_pos hi4]
      apply ih (i + 1) _ (by omega) (by simp at hlen; omega)
      intro x hx
      apply hval
      have e : 5 - i = (5 - (i + 1)) + 1 := by omega
      rw [e, List.take_succ_cons]
      exact List.mem_cons_of_mem _ hx
    · rw [if_neg hi4]

theorem fromStrLoop_err (s : List Nat) : ∀ i code, i ≤ 4 →
    ¬ (∀ b ∈ s.take (5 - i), ChunkType.is_valid_byte b = true) →
    fromStrLoop s i code = some (.error "Invalid byte in chunk type string") := by
  induction s with
  | nil => intro i code hi hval; exact absurd (by simp) hval
  | cons b rest ih =>
    intro i code hi hval
    by_cases hb : ChunkType.is_valid_byte b = true
    · have hi4 : i < 4 := by
        rcases Nat.lt_or_ge i 4 with h | h
        · exact h
        · exfalso
          apply hval
          intro x hx
          have hi' : i = 4 := by omega
          rw [hi'] at hx
          simp at hx
          rw [hx]
          exact hb
      simp only [fromStrLoop]
      rw [hb, if_neg (by simp : ¬ (true = false)), if_pos hi4]
      apply ih (i + 1) _ (by omega)
      intro hall
      apply hval
      intro x hx
      have e : 5 - i = (5 - (i + 1)) + 1 := by omega
      rw [e, List.take_succ_cons] at hx
      rcases List.mem_cons.mp hx with rfl | hx'
      · exact hb
      · exact hall x hx'
    · have hb' : ChunkType.is_valid_byte b = false := by
        rwa [Bool.not_eq_true] at hb
      simp only [fromStrLoop]
      rw [if_pos hb']

theorem fromStrLoop_short (s : List Nat) : ∀ i code, code.length = 4 →
    i + s.length ≤ 4 → (∀ b ∈ s, ChunkType.is_valid_byte b = true) →
    fromStrLoop s i code =
      some (.ok (code.take i ++ s ++ code.drop (i + s.length))) := by
  induction s with
  | nil =>
    intro i code hc hi hval
    simp [fromStrLoop, List.take_append_drop]
  | cons b rest ih =>
    intro i code hc hi hval
    have hb : ChunkType.is_valid_byte b = true := hval b (List.mem_cons_self _ _)
    have hi4 : i < 4 := by simp at hi; omega
    have hset : code.set i b = code.take i ++ b :: code.drop (i + 1) :=
      List.set_eq_take_cons_drop b (by omega : i < code.length)
    have hti : (code.take i).length = i := by rw [List.length_take]; omega
    simp only [fromStrLoop]
    rw [hb, if_neg (by simp : ¬ (true = false)), if_pos hi4]
    rw [ih (i + 1) (code.set i b) (by simp [hc]) (by simp at hi ⊢; omega)
      (fun x hx => hval x (List.mem_cons_of_mem _ hx))]
    have eqA : (code.set i b).take (i + 1) = code.take i ++ [b] := by
      rw [hset, show i + 1 = (code.take i).length + 1 by rw [hti], List.take_append]
      simp
    have eqB : (code.set i b).drop (i + 1 + rest.length) =
        code.drop (i + 1 + rest.length) := by
      rw [hset, show i + 1 + rest.length = (code.take i).length + (1 + rest.length) by
        rw [hti]; omega, List.drop_append]
      have e1 : 1 + rest.length = rest.length + 1 := by omega
      rw [e1, List.drop_succ_cons, List.drop_drop]
      congr 1
      omega
    rw [eqA, eqB]
    have e2 : i + (b :: rest).length = i + 1 + rest.length := by simp; omega
    rw [e2]
    simp [List.append_assoc]

/-- C10 counterexample: the 5-byte string "abcd!" does not overflow the
4-byte code array — its fifth byte fails the letter check first, so the
constructor returns the invalid-byte error rather than panicking. -/
theorem from_str_five_bytes_no_panic :
    chunkTypeFromStr [97, 98, 99, 100, 33] =
      some (.error "Invalid byte in chunk type string") := by
  decide

/-- C10 amended.  Text construction performs no length check: a string of
more than 4 bytes whose first five bytes all pass the code's letter check
reaches the out-of-bounds write at index 4 (a panic); with more than 4
bytes and a failing byte among the first five, the invalid-byte error is
returned before any overflow; and a string of fewer than 4 bytes whose
bytes all pass the letter check yields an identifier padded with zero
bytes. -/
theorem from_str_no_length_check (s : List Nat) :
    (4 < s.length → (∀ b ∈ s.take 5, ChunkType.is_valid_byte b = true) →
      chunkTypeFromStr s = none) ∧
    (4 < s.length → ¬ (∀ b ∈ s.take 5, ChunkType.is_valid_byte b = true) →
      chunkTypeFromStr s = some (.error "Invalid byte in chunk type string")) ∧
    (s.length < 4 → (∀ b ∈ s, ChunkType.is_valid_byte b = true) →
      chunkTypeFromStr s = some (.ok ⟨s ++ List.replicate (4 - s.length) 0⟩)) := by
  refine ⟨?_, ?_, ?_⟩
  · intro h4 hval
    unfold chunkTypeFromStr
    rw [fromStrLoop_none s 0 _ (by omega) (by omega) (by simpa using hval)]
    rfl
  · intro h4 hval
    unfold chunkTypeFromStr
    rw [fromStrLoop_err s 0 _ (by omega) (by simpa using hval)]
    rfl
  · intro h4 hval
    unfold chunkTypeFromStr
    rw [fromStrLoop_short s 0 _ (by rfl) (by omega) hval]
    have e : List.drop (0 + s.length) [0, 0, 0, 0] =
        List.replicate (4 - s.length) 0 := by
      rw [show (0 + s.length) = s.length by omega,
        show [0, 0, 0, 0] = List.replicate 4 0 from rfl, List.drop_replicate]
    rw [e]
    rfl

/-- C10 witness: the 5-letter string "abcde" reaches the out-of-bounds
write and panics, and the 2-letter string "ab" succeeds zero-padded. -/
theorem from_str_no_length_check_witness :
    chunkTypeFromStr [97, 98, 99, 100, 101] = none ∧
    chunkTypeFromStr [97, 98] = some (.ok ⟨[97, 98] ++ List.replicate 2 0⟩) :=
  ⟨(from_str_no_length_check [97, 98, 99, 100, 101]).1 (by decide) (by decide),
   (from_str_no_length_check [97, 98]).2.2 (by decide) (by decide)⟩

theorem and32_xor_two_pow {x j : Nat} (hj : j < 8) (hne : j ≠ 5) :
    (x ^^^ 2 ^ j) &&& 32 = x &&& 32 := by
  rw [Nat.and_xor_distrib_right,
    show 2 ^ j &&& 32 = 0 by interval_cases j <;> first | exact absurd rfl hne | decide,
    Nat.xor_zero]

theorem and32_xor_32 {x : Nat} (h : x &&& 32 = 0) : (x ^^^ 2 ^ 5) &&& 32 = 32 := by
  rw [Nat.and_xor_distrib_right, h]
  decide

theorem flipAt_append (l1 l2 : List Nat) (k j : Nat) :
    flipAt (l1 ++ l2) (l1.length + k) j = l1 ++ flipAt l2 k j := by
  unfold flipAt
  rw [List.getD_append_right _ _ _ _ (Nat.le_add_right _ _), Nat.add_sub_cancel_left,
    set_append_right]

/-- C2 counterexample: flipping bit 5 of the byte at offset 6 (the
reserved bit of the identifier's third byte) of the encoded chunk
("RuSt", empty payload) makes decoding fail with the invalid-identifier
error `Bad data type`, not with a `Bad CRC` (BadChecksum) error. -/
theorem chunk_bitflip_reserved_not_checksum :
    chunkTryFrom (flipAt (Chunk.new ⟨[82, 117, 83, 116]⟩ []).as_bytes 6 5)
      = some (.error (.badDataType [82, 117, 115, 116])) := by
  decide

theorem decode_modified_ident (L a b c d : Nat) (data : List Nat) (C : Nat)
    (hC : C < 4294967296)
    (hvalid : (c &&& 32 == 0) = true)
    (hne : crc32 ([a, b, c, d] ++ data) ≠ C) :
    chunkTryFrom (toBe4 L ++ a :: b :: c :: d :: (data ++ toBe4 C))
      = some (.error (.badCrc C (crc32 ([a, b, c, d] ++ data)))) := by
  rw [chunkTryFrom_parts _ _ _ _ _ _ _ (by rfl) (by rfl), if_pos hvalid,
    fromBe4_toBe4 hC, if_pos (fun h => hne h.symm)]

theorem decode_modified_ident_invalid (L a b c d : Nat) (data : List Nat) (C : Nat)
    (hinv : ¬ (c &&& 32 == 0) = true) :
    chunkTryFrom (toBe4 L ++ a :: b :: c :: d :: (data ++ toBe4 C))
      = some (.error (.badDataType [a, b, c, d])) := by
  rw [chunkTryFrom_parts _ _ _ _ _ _ _ (by rfl) (by rfl), if_neg hinv]

/-- C2 amended.  For a chunk built by `Chunk::new` from a valid identifier,
flipping any single bit of the encoded identifier bytes (offsets 4..8) or
data bytes (offsets 8..8+length) makes decoding fail: with the
invalid-identifier error when the flipped bit is the reserved bit (bit 5
of the byte at offset 6), and with a `Bad CRC` (BadChecksum) error in
every other case. -/
theorem chunk_bitflip_detected (t : ChunkType) (data : List Nat) (i j : Nat)
    (hlen : t.code.length = 4) (hv : t.is_valid = true) (hj : j < 8)
    (hi : 4 ≤ i ∧ i < 8 ∨ 8 ≤ i ∧ i < 8 + data.length) :
    (if i = 6 ∧ j = 5 then
      isBadDataTypeErr (chunkTryFrom (flipAt (Chunk.new t data).as_bytes i j))
    else
      isBadCrcErr (chunkTryFrom (flipAt (Chunk.new t data).as_bytes i j))) = true := by
  obtain ⟨g0, g1, g2, g3, rfl⟩ : ∃ a b c d, t = ⟨[a, b, c, d]⟩ := by
    rcases t with ⟨code⟩
    rcases code with _ | ⟨a, _ | ⟨b, _ | ⟨c, _ | ⟨d, _ | ⟨e, rest⟩⟩⟩⟩⟩
    · simp at hlen
    · simp at hlen
    · simp at hlen
    · simp at hlen
    · exact ⟨a, b, c, d, rfl⟩
    · simp at hlen
  have hv2 : g2 &&& 32 = 0 := by
    have h := hv
    simp only [ChunkType.is_valid, List.getD_cons_succ, List.getD_cons_zero] at h
    simpa using h
  have henc : (Chunk.new ⟨[g0, g1, g2, g3]⟩ data).as_bytes
      = toBe4 (data.length % 4294967296) ++ g0 :: g1 :: g2 :: g3 ::
        (data ++ toBe4 (crc32 ([g0, g1, g2, g3] ++ data))) := by
    simp [Chunk.as_bytes, Chunk.new, ChunkType.bytes]
  rw [henc]
  rcases hi with ⟨hi4, hi8⟩ | ⟨hi8, hilen⟩
  · obtain ⟨k, rfl⟩ : ∃ k, i = 4 + k := ⟨i - 4, by omega⟩
    have hk : k < 4 := by omega
    have hfa : flipAt (toBe4 (data.length % 4294967296) ++ g0 :: g1 :: g2 :: g3 ::
        (data ++ toBe4 (crc32 ([g0, g1, g2, g3] ++ data)))) (4 + k) j
        = toBe4 (data.length % 4294967296) ++ flipAt (g0 :: g1 :: g2 :: g3 ::
          (data ++ toBe4 (crc32 ([g0, g1, g2, g3] ++ data)))) k j :=
      flipAt_append _ _ k j
    rw [hfa]
    interval_cases k
    · rw [if_neg (by rintro ⟨h1, h2⟩; omega)]
      show isBadCrcErr (chunkTryFrom (toBe4 (data.length % 4294967296) ++
        (g0 ^^^ 2 ^ j) :: g1 :: g2 :: g3 ::
        (data ++ toBe4 (crc32 ([g0, g1, g2, g3] ++ data))))) = true
      rw [decode_modified_ident _ _ _ _ _ _ _ (crc32_lt _) (by rw [hv2]; rfl)
        (show crc32 ([g0 ^^^ 2 ^ j, g1, g2, g3] ++ data)
            ≠ crc32 ([g0, g1, g2, g3] ++ data) from
          crc32_flip_ne [] (g1 :: g2 :: g3 :: data) g0 j hj)]
      rfl
    · rw [if_neg (by rintro ⟨h1, h2⟩; omega)]
      show isBadCrcErr (chunkTryFrom (toBe4 (data.length % 4294967296) ++
        g0 :: (g1 ^^^ 2 ^ j) :: g2 :: g3 ::
        (data ++ toBe4 (crc32 ([g0, g1, g2, g3] ++ data))))) = true
      rw [decode_modified_ident _ _ _ _ _ _ _ (crc32_lt _) (by rw [hv2]; rfl)
        (show crc32 ([g0, g1 ^^^ 2 ^ j, g2, g3] ++ data)
            ≠ crc32 ([g0, g1, g2, g3] ++ data) from
          crc32_flip_ne [g0] (g2 :: g3 :: data) g1 j hj)]
      rfl
    · by_cases hj5 : j = 5
      · subst hj5
        rw [if_pos (by omega)]
        show isBadDataTypeErr (chunkTryFrom (toBe4 (data.length % 4294967296) ++
          g0 :: g1 :: (g2 ^^^ 2 ^ 5) :: g3 ::
          (data ++ toBe4 (crc32 ([g0, g1, g2, g3] ++ data))))) = true
        rw [decode_modified_ident_invalid _ _ _ _ _ _ _
          (by rw [and32_xor_32 hv2]; decide)]
        rfl
      · rw [if_neg (by rintro ⟨h1, h2⟩; exact hj5 h2)]
        show isBadCrcErr (chunkTryFrom (toBe4 (data.length % 4294967296) ++
          g0 :: g1 :: (g2 ^^^ 2 ^ j) :: g3 ::
          (data ++ toBe4 (crc32 ([g0, g1, g2, g3] ++ data))))) = true
        rw [decode_modified_ident _ _ _ _ _ _ _ (crc32_lt _)
          (by rw [and32_xor_two_pow hj hj5, hv2]; rfl)
          (show crc32 ([g0, g1, g2 ^^^ 2 ^ j, g3] ++ data)
              ≠ crc32 ([g0, g1, g2, g3] ++ data) from
            crc32_flip_ne [g0, g1] (g3 :: data) g2 j hj)]
        rfl
    · rw [if_neg (by rintro ⟨h1, h2⟩; omega)]
      show isBadCrcErr (chunkTryFrom (toBe4 (data.length % 4294967296) ++
        g0 :: g1 :: g2 :: (g3 ^^^ 2 ^ j) ::
        (data ++ toBe4 (crc32 ([g0, g1, g2, g3] ++ data))))) = true
      rw [decode_modified_ident _ _ _ _ _ _ _ (crc32_lt _) (by rw [hv2]; rfl)
        (show crc32 ([g0, g1, g2, g3 ^^^ 2 ^ j] ++ data)
            ≠ crc32 ([g0, g1, g2, g3] ++ data) from
          crc32_flip_ne [g0, g1, g2] data g3 j hj)]
      rfl
  · obtain ⟨k, rfl⟩ : ∃ k, i = 8 + k := ⟨i - 8, by omega⟩
    have hk : k < data.length := by omega
    rw [if_neg (by rintro ⟨h1, h2⟩; omega)]
    have hassoc : toBe4 (data.length % 4294967296) ++ g0 :: g1 :: g2 :: g3 ::
        (data ++ toBe4 (crc32 ([g0, g1, g2, g3] ++ data)))
        = (toBe4 (data.length % 4294967296) ++ [g0, g1, g2, g3]) ++
          (data ++ toBe4 (crc32 ([g0, g1, g2, g3] ++ data))) := by
      simp
    rw [hassoc]
    have hfa : flipAt ((toBe4 (data.length % 4294967296) ++ [g0, g1, g2, g3]) ++
        (data ++ toBe4 (crc32 ([g0, g1, g2, g3] ++ data)))) (8 + k) j
        = (toBe4 (data.length % 4294967296) ++ [g0, g1, g2, g3]) ++
          flipAt (data ++ toBe4 (crc32 ([g0, g1, g2, g3] ++ data))) k j :=
      flipAt_append _ _ k j
    rw [hfa]
    have hfl : flipAt (data ++ toBe4 (crc32 ([g0, g1, g2, g3] ++ data))) k j
        = data.set k (data.getD k 0 ^^^ 2 ^ j) ++
          toBe4 (crc32 ([g0, g1, g2, g3] ++ data)) := by
      unfold flipAt
      rw [List.getD_append _ _ _ _ hk, set_append_left _ _ _ k hk]
    rw [hfl]
    have hassoc2 : (toBe4 (data.length % 4294967296) ++ [g0, g1, g2, g3]) ++
        (data.set k (data.getD k 0 ^^^ 2 ^ j) ++
          toBe4 (crc32 ([g0, g1, g2, g3] ++ data)))
        = toBe4 (data.length % 4294967296) ++ g0 :: g1 :: g2 :: g3 ::
          (data.set k (data.getD k 0 ^^^ 2 ^ j) ++
            toBe4 (crc32 ([g0, g1, g2, g3] ++ data))) := by
      simp
    rw [hassoc2]
    have hksplit : data = data.take k ++ data.getD k 0 :: data.drop (k + 1) := by
      rw [List.getD_eq_getElem _ _ hk, List.getElem_cons_drop _ _ hk,
        List.take_append_drop]
    have hneq : crc32 ([g0, g1, g2, g3] ++ data.set k (data.getD k 0 ^^^ 2 ^ j))
        ≠ crc32 ([g0, g1, g2, g3] ++ data) := by
      rw [List.set_eq_take_cons_drop _ hk]
      conv_rhs => rw [hksplit]
      rw [show [g0, g1, g2, g3] ++
            (data.take k ++ (data.getD k 0 ^^^ 2 ^ j) :: data.drop (k + 1))
          = ([g0, g1, g2, g3] ++ data.take k) ++
            (data.getD k 0 ^^^ 2 ^ j) :: data.drop (k + 1) by simp,
        show [g0, g1, g2, g3] ++ (data.take k ++ data.getD k 0 :: data.drop (k + 1))
          = ([g0, g1, g2, g3] ++ data.take k) ++
            data.getD k 0 :: data.drop (k + 1) by simp]
      exact crc32_flip_ne _ _ _ _ hj
    rw [decode_modified_ident _ _ _ _ _ _ _ (crc32_lt _) (by rw [hv2]; rfl) hneq]
    rfl

/-- C2 witness: flipping bit 0 of the byte at offset 4 of the encoded
chunk ("RuSt", empty payload) makes decoding fail with `Bad CRC`. -/
theorem chunk_bitflip_detected_witness :
    isBadCrcErr (chunkTryFrom
      (flipAt (Chunk.new ⟨[82, 117, 83, 116]⟩ []).as_bytes 4 0)) = true := by
  have h := chunk_bitflip_detected ⟨[82, 117, 83, 116]⟩ [] 4 0 (by decide) (by decide)
    (by decide) (Or.inl (by omega))
  simpa using h
